import Mathlib

/-!
Verification development for the wikipedia_random repository
(docs/js/app.js). The JavaScript core is shallowly embedded below:
strings are Lean strings (lists of characters), DOM element sequences
are lists of tagged elements in document order, network interactions
are made explicit by passing the sequence of upstream responses as a
value, and the jsPDF drawing surface is a state record of pages of
draw operations.
-/

namespace WikiRandom

/-! ## Character and string utilities (JS trim, whitespace collapse, lowercase) -/

/-- Characters treated as whitespace by the JS regex class and by trim. -/
def jsWsChar (c : Char) : Bool :=
  c == ' ' || c == '\t' || c == '\n' || c == '\r' || c == '\x0b' || c == '\x0c'

/-- JS String.prototype.trim on a character list. -/
def trimChars (l : List Char) : List Char :=
  ((l.dropWhile jsWsChar).reverse.dropWhile jsWsChar).reverse

/-- Collapse every maximal whitespace run to a single space, as the JS
replace with a whitespace-run pattern and a single-space replacement does.
The flag records whether the previous character was whitespace. -/
def collapseWsAux : Bool → List Char → List Char
  | _, [] => []
  | prevWs, c :: rest =>
    if jsWsChar c then
      if prevWs then collapseWsAux true rest
      else ' ' :: collapseWsAux true rest
    else c :: collapseWsAux false rest

/-- Embedding of the normalization applied to element text in app.js:
collapse whitespace runs to one space, then trim. -/
def normalizeWs (s : String) : String :=
  String.mk (trimChars (collapseWsAux false s.toList))

/-- ASCII lowercasing, modelling JS toLowerCase on the ASCII headings used. -/
def toLowerStr (s : String) : String :=
  String.mk (s.toList.map Char.toLower)

/-- JS Array.prototype.join with a separator. -/
def joinSep (sep : String) : List String → String
  | [] => ""
  | [s] => s
  | s :: rest => s ++ sep ++ joinSep sep rest

/-! ## Reference text cleaner (cleanReferenceText, app.js lines 258-271) -/

/-- The character set scanned by the cleaner loop, written exactly as the
source string literal. -/
def lowerSpaceChars : List Char := "abcdefghijklmnopqrstuvwxyz ".toList

/-- Membership in the scanned character set. -/
def isLowerSpace (c : Char) : Bool := lowerSpaceChars.contains c

/-- Length of the forward scan over lowercase letters and spaces. -/
def scanLen (text : List Char) : Nat := (text.takeWhile isLowerSpace).length

/-- JS replace of one leading greater-than sign. -/
def dropOneGt : List Char → List Char
  | [] => []
  | c :: rest => if c = '>' then rest else c :: rest

/-- One stripping step of the cleaner loop: drop the scanned span, trim,
drop one leading greater-than sign, trim again. -/
def stripStep (text : List Char) (i : Nat) : List Char :=
  trimChars (dropOneGt (trimChars (text.drop i)))

/-- Whether the single character sliced at position i trims to empty
(it is whitespace or absent). -/
def sliceBlankAt (text : List Char) (i : Nat) : Bool :=
  trimChars ((text.drop i).take 1) == []

/-- Whether the first 20 characters contain a greater-than sign. -/
def gtWithin20 (text : List Char) : Bool := (text.take 20).contains '>'

/-- The loop guard of the cleaner: the scan consumed at least one
character, and the scan reached the end, or stopped at a greater-than
sign, or stopped at blank while a greater-than sign occurs in the first
20 characters. An empty text never satisfies the guard. -/
def loopCond (text : List Char) : Bool :=
  let i := scanLen text
  decide (0 < i) &&
    (decide (i = text.length) || text.get? i == some '>' ||
      (sliceBlankAt text i && gtWithin20 text))

/-- Fuel-indexed unfolding of the cleaner while-loop. Each step with a
true guard strictly shrinks the text, so fuel one more than the length
reaches the fixpoint. -/
def cleanLoopFuel : Nat → List Char → List Char
  | 0, text => text
  | Nat.succ fuel, text =>
    if loopCond text then cleanLoopFuel fuel (stripStep text (scanLen text)) else text

/-- Embedding of cleanReferenceText on character lists: trim, drop one
leading caret and retrim, then run the stripping loop to its fixpoint. -/
def cleanRefChars (raw : List Char) : List Char :=
  let t := trimChars raw
  let t := if t.head? = some '^' then trimChars (t.drop 1) else t
  cleanLoopFuel (t.length + 1) t

/-- Embedding of cleanReferenceText (app.js lines 258-271). -/
def cleanReferenceText (raw : String) : String :=
  String.mk (cleanRefChars raw.toList)

/-! ## Content extraction (fetchArticleContent, app.js lines 285-339)

The parsed article content is embedded as the document-order sequence of
elements remaining after the removal of script, style, nav, table and
figure elements. Each element carries the tag relevant to the two
querySelectorAll passes (h2, h3, p for body blocks; list items whose id
starts with the citation-note marker for references; other for elements
matched by neither) and its text content. -/

/-- Element classification for the two extraction passes. -/
inductive Tag
  | h2
  | h3
  | p
  | liCite
  | other
deriving DecidableEq, Repr

/-- One content element: its tag and its text content. -/
structure Element where
  tag : Tag
  text : String
deriving DecidableEq, Repr

/-- Kind of an extracted content block. -/
inductive BlockType
  | h2
  | h3
  | p
deriving DecidableEq, Repr

/-- One extracted content block. -/
structure Block where
  type : BlockType
  text : String
deriving DecidableEq, Repr

/-- The stop-heading set, lowercased, as in app.js line 313. -/
def stopHeadings : List String :=
  ["see also", "references", "further reading", "external links"]

/-- Membership of the lowercased text in the stop-heading set. -/
def isStopHeadingText (t : String) : Bool :=
  stopHeadings.contains (toLowerStr t)

/-- Embedding of the body-block loop (app.js lines 315-325): visit h2,
h3 and p elements in document order, normalize the text, skip empty
text, stop entirely at a stop heading, otherwise record a block. -/
def extractBlocks : List Element → List Block
  | [] => []
  | e :: rest =>
    match e.tag with
    | .h2 =>
      let t := normalizeWs e.text
      if t = "" then extractBlocks rest
      else if isStopHeadingText t then []
      else ⟨.h2, t⟩ :: extractBlocks rest
    | .h3 =>
      let t := normalizeWs e.text
      if t = "" then extractBlocks rest
      else if isStopHeadingText t then []
      else ⟨.h3, t⟩ :: extractBlocks rest
    | .p =>
      let t := normalizeWs e.text
      if t = "" then extractBlocks rest
      else ⟨.p, t⟩ :: extractBlocks rest
    | .liCite => extractBlocks rest
    | .other => extractBlocks rest

/-- The formatted reference string pushed by app.js line 331, where n is
the number of references already collected. -/
def refString (n : Nat) (c : String) : String :=
  "[" ++ toString (n + 1) ++ "] " ++ c

/-- Embedding of the reference loop (app.js lines 327-332) with the
references collected so far as the accumulator: for each citation list
item, clean its normalized text and, when non-empty, push it numbered
by the current length plus one. -/
def extractRefsAux : List Element → List String → List String
  | [], acc => acc
  | e :: rest, acc =>
    if e.tag = Tag.liCite then
      let cleaned := cleanReferenceText (normalizeWs e.text)
      if cleaned = "" then extractRefsAux rest acc
      else extractRefsAux rest (acc ++ [refString acc.length cleaned])
    else extractRefsAux rest acc

/-- The reference list of the extraction result. -/
def extractRefs (l : List Element) : List String := extractRefsAux l []

/-- The cleaned, non-empty citation texts of the document in order
(specification-side description used to state the numbering invariant). -/
def cleanedRefTexts (l : List Element) : List String :=
  l.filterMap fun e =>
    if e.tag = Tag.liCite then
      let c := cleanReferenceText (normalizeWs e.text)
      if c = "" then none else some c
    else none

/-- Sequential numbering of a list of texts starting at index n
(specification-side description: entry k is numbered n + k + 1). -/
def numberRefs : Nat → List String → List String
  | _, [] => []
  | n, c :: rest => refString n c :: numberRefs (n + 1) rest

/-! ## Plain text formatter (formatPlainText, app.js lines 344-354) -/

/-- Embedding of formatPlainText: headings are wrapped in blank-line
spacing, paragraphs are emitted as their own line, parts are joined by
newlines and trimmed, then the title banner and the optional references
section are assembled. -/
def formatPlainText (title : String) (bodyBlocks : List Block) (references : List String) : String :=
  let parts := bodyBlocks.map fun b =>
    match b.type with
    | .h2 => "\n\n" ++ b.text ++ "\n"
    | .h3 => "\n\n" ++ b.text ++ "\n"
    | .p => b.text
  let body := String.mk (trimChars (joinSep "\n" parts).toList)
  let sections := [title, String.mk (List.replicate title.length '='), "", body]
  let sections :=
    if references.length ≠ 0 then
      sections ++ ["", "References", "", joinSep "\n\n" references]
    else sections
  joinSep "\n" sections

/-! ## Category source tables (app.js lines 6-67) -/

/-- The vital-article listing pages by category key. -/
def VITAL_SOURCES : List (String × String) :=
  [("vital_people", "Wikipedia:Vital_articles/Level/4/People"),
   ("vital_history", "Wikipedia:Vital_articles/Level/4/History"),
   ("vital_geography", "Wikipedia:Vital_articles/Level/4/Geography"),
   ("vital_arts", "Wikipedia:Vital_articles/Level/4/Arts"),
   ("vital_philosophy_religion", "Wikipedia:Vital_articles/Level/4/Philosophy_and_religion"),
   ("vital_everyday_life", "Wikipedia:Vital_articles/Level/4/Everyday_life"),
   ("vital_society_social_sciences", "Wikipedia:Vital_articles/Level/4/Society_and_social_sciences"),
   ("vital_biology_health_sciences", "Wikipedia:Vital_articles/Level/4/Biology_and_health_sciences"),
   ("vital_physical_sciences", "Wikipedia:Vital_articles/Level/4/Physical_sciences"),
   ("vital_technology", "Wikipedia:Vital_articles/Level/4/Technology"),
   ("vital_mathematics", "Wikipedia:Vital_articles/Level/4/Mathematics")]

/-- The good-article listing pages by category key. -/
def GOOD_SOURCES : List (String × String) :=
  [("agriculture_food_drink", "Wikipedia:Good_articles/Agriculture,_food_and_drink"),
   ("art_architecture", "Wikipedia:Good_articles/Art_and_architecture"),
   ("engineering_technology", "Wikipedia:Good_articles/Engineering_and_technology"),
   ("geography_places", "Wikipedia:Good_articles/Geography_and_places"),
   ("history", "Wikipedia:Good_articles/History"),
   ("language_literature", "Wikipedia:Good_articles/Language_and_literature"),
   ("mathematics", "Wikipedia:Good_articles/Mathematics"),
   ("media_drama", "Wikipedia:Good_articles/Media_and_drama"),
   ("music", "Wikipedia:Good_articles/Music"),
   ("natural_sciences", "Wikipedia:Good_articles/Natural_sciences"),
   ("philosophy_religion", "Wikipedia:Good_articles/Philosophy_and_religion"),
   ("social_sciences_society", "Wikipedia:Good_articles/Social_sciences_and_society"),
   ("sports_recreation", "Wikipedia:Good_articles/Sports_and_recreation"),
   ("video_games", "Wikipedia:Good_articles/Video_games"),
   ("warfare", "Wikipedia:Good_articles/Warfare"),
   ("all_good", "Wikipedia:Good_articles/all")]

/-- The display labels by category key. -/
def CATEGORY_LABELS : List (String × String) :=
  [("vital_people", "People"),
   ("vital_history", "History"),
   ("vital_geography", "Geography"),
   ("vital_arts", "Arts"),
   ("vital_philosophy_religion", "Philosophy and religion"),
   ("vital_everyday_life", "Everyday life"),
   ("vital_society_social_sciences", "Society and social sciences"),
   ("vital_biology_health_sciences", "Biology and health sciences"),
   ("vital_physical_sciences", "Physical sciences"),
   ("vital_technology", "Technology"),
   ("vital_mathematics", "Mathematics"),
   ("agriculture_food_drink", "Agriculture, food and drink"),
   ("art_architecture", "Art and architecture"),
   ("engineering_technology", "Engineering and technology"),
   ("geography_places", "Geography and places"),
   ("history", "History"),
   ("language_literature", "Language and literature"),
   ("mathematics", "Mathematics"),
   ("media_drama", "Media and drama"),
   ("music", "Music"),
   ("natural_sciences", "Natural sciences"),
   ("philosophy_religion", "Philosophy and religion"),
   ("social_sciences_society", "Social sciences and society"),
   ("sports_recreation", "Sports and recreation"),
   ("video_games", "Video games"),
   ("warfare", "Warfare"),
   ("all_good", "All good articles")]

/-- Embedding of getPageTitleForCategory (app.js lines 183-185): the
vital table, then the good table, then none. All table values are
non-empty, so lookup fallback models the JS or-chain. -/
def getPageTitleForCategory (category : String) : Option String :=
  match VITAL_SOURCES.lookup category with
  | some t => some t
  | none => GOOD_SOURCES.lookup category

/-! ## Paginated listing fetch (fetchArticleLinks, app.js lines 190-234)

Each iteration of the do-while loop issues one request; its outcome is
embedded as one ListingResponse consumed in order. A response is a
transport failure (the fetch or json call throws), a non-success HTTP
status, an upstream-reported error object, a missing listing page, or a
successful page carrying its links and whether a continuation token is
present. -/

/-- One link object of the listing response. -/
structure WikiLink where
  ns : Nat
  title : String
deriving DecidableEq, Repr

/-- Outcome of one listing-page request. -/
inductive ListingResponse
  | transportError
  | httpError
  | apiError
  | missingPage
  | ok (links : List WikiLink) (hasContinue : Bool)
deriving DecidableEq, Repr

/-- Whether a listing response is one of the failure outcomes. -/
def isFailureResponse : ListingResponse → Bool
  | .transportError => true
  | .httpError => true
  | .apiError => true
  | .missingPage => true
  | .ok _ _ => false

/-- JS replace of every space by an underscore. -/
def spacesToUnderscores (s : String) : String :=
  String.mk (s.toList.map fun c => if c = ' ' then '_' else c)

/-- The qualifying-link filter of the loop body (app.js lines 220-224):
keep main-namespace links whose title has no colon, as wiki paths. -/
def qualifyLinks (links : List WikiLink) : List String :=
  links.filterMap fun lk =>
    if lk.ns = 0 ∧ ¬ lk.title.toList.contains ':' then
      some ("/wiki/" ++ spacesToUnderscores lk.title)
    else none

/-- Embedding of the do-while loop of fetchArticleLinks with the links
accumulated so far: any failure returns the empty list, a successful
page appends its qualifying links and continues exactly when a
continuation token is present. -/
def fetchLinksGo : List ListingResponse → List String → List String
  | [], acc => acc
  | r :: rest, acc =>
    match r with
    | .transportError => []
    | .httpError => []
    | .apiError => []
    | .missingPage => []
    | .ok links hasContinue =>
      let acc := acc ++ qualifyLinks links
      if hasContinue then fetchLinksGo rest acc else acc

/-- Embedding of fetchArticleLinks: a category without a backing page
yields the empty list without any request; otherwise the loop runs over
the given response sequence. -/
def fetchArticleLinks (category : String) (responses : List ListingResponse) : List String :=
  match getPageTitleForCategory category with
  | none => []
  | some _ => fetchLinksGo responses []

/-! ## Article content fetch (fetchArticleContent, app.js lines 285-339) -/

/-- Outcome of the one content request: a failure (transport error,
upstream error object, or missing parse payload), or a parse payload
with an optional display title and the optional content container as
its element sequence. -/
inductive ContentResponse
  | failure
  | parsed (displaytitle : Option String) (content : Option (List Element))
deriving Repr

/-- The structured result of fetchArticleContent. -/
structure ArticleContent where
  title : String
  bodyBlocks : List Block
  references : List String
deriving DecidableEq, Repr

/-- The required URL head checked at app.js line 286. -/
def wikiUrlBase : String := "https://en.wikipedia.org/wiki/"

/-- Whether the character list s starts with the character list h. -/
def startsWithChars (h s : List Char) : Bool := s.take h.length == h

/-- Embedding of fetchArticleContent, paired with the number of upstream
requests issued: a URL that does not start with the wiki base returns
null with no request; otherwise exactly one request is made and its
outcome is extracted. -/
def fetchArticleContent (articleUrl : String) (resp : ContentResponse) :
    Option ArticleContent × Nat :=
  if startsWithChars wikiUrlBase.toList articleUrl.toList = false then (none, 0)
  else
    let title := (((articleUrl.splitOn "/wiki/").get? 1).getD "").replace "_" " "
    match resp with
    | .failure => (none, 1)
    | .parsed dt content =>
      let displayTitle := match dt with
        | some s => if s = "" then title else s
        | none => title
      match content with
      | none => (some ⟨displayTitle, [], []⟩, 1)
      | some els => (some ⟨displayTitle, extractBlocks els, extractRefs els⟩, 1)

/-! ## Read log (logArticle, app.js lines 120-132) -/

/-- One read-log entry. -/
structure LogEntry where
  title : String
  url : String
  category : String
  date : String
deriving DecidableEq, Repr

/-- The display label for a category key, falling back to the key
itself, as the JS or-chain over the label table does. -/
def categoryLabel (category : String) : String :=
  (CATEGORY_LABELS.lookup category).getD category

/-- Embedding of Array.prototype.findIndex with the url comparison of
app.js line 123, as an optional index. -/
def findIndexUrl (url : String) : List LogEntry → Option Nat
  | [] => none
  | e :: rest =>
    if e.url = url then some 0 else (findIndexUrl url rest).map (· + 1)

/-- Embedding of logArticle on the log value, with the clock passed in
as the date string: an existing entry with the same url is overwritten
at its position, otherwise the new entry is prepended. -/
def logArticle (url title category date : String) (log : List LogEntry) : List LogEntry :=
  let entry : LogEntry := ⟨title, url, categoryLabel category, date⟩
  match findIndexUrl url log with
  | some i => log.set i entry
  | none => entry :: log

/-! ## PDF layout (buildPdf, app.js lines 383-471)

The jsPDF surface is embedded as a record of completed pages and the
page being drawn, each page an ordered list of positioned text draw
operations carrying the font state at the moment of the call. Text
wrapping (splitTextToSize) depends on font metrics, so it is passed in
as a function from a string and a width to its wrapped lines. The
default A4 page width of 210 units and the fixed constants of the
source are kept. -/

/-- One positioned text draw operation. -/
structure DrawOp where
  lines : List String
  x : Nat
  y : Nat
  size : Nat
  bold : Bool
deriving DecidableEq, Repr

/-- The drawing state: completed pages, the current page, and the font
state. -/
structure PdfDoc where
  pages : List (List DrawOp)
  current : List DrawOp
  size : Nat
  bold : Bool
deriving Repr

/-- A fresh jsPDF document (default font size 16, normal weight). -/
def pdfInit : PdfDoc := ⟨[], [], 16, false⟩

/-- setFontSize. -/
def setFontSize (d : PdfDoc) (n : Nat) : PdfDoc := { d with size := n }

/-- setFont weight switching. -/
def setBold (d : PdfDoc) (b : Bool) : PdfDoc := { d with bold := b }

/-- doc.text: append a draw operation at the current font state. -/
def drawText (d : PdfDoc) (lines : List String) (x y : Nat) : PdfDoc :=
  { d with current := d.current ++ [⟨lines, x, y, d.size, d.bold⟩] }

/-- doc.addPage: complete the current page and start an empty one. -/
def addPage (d : PdfDoc) : PdfDoc :=
  { d with pages := d.pages ++ [d.current], current := [] }

/-- One table-of-contents entry (app.js lines 406-410): level-3 entries
are prefixed by four spaces and indented 8 units further. -/
def tocStep (margin : Nat) (st : PdfDoc × Nat) (b : Block) : PdfDoc × Nat :=
  let (d, y) := st
  let indent := if b.type == BlockType.h3 then 8 else 0
  let pre := if b.type == BlockType.h3 then "    " else ""
  (drawText d [pre ++ b.text] (margin + indent) y, y + 6)

/-- One body block (app.js lines 421-445): a near-bottom check starting
a new page, then the block drawn with its font switch and cursor
advance. -/
def bodyStep (split : String → Nat → List String) (lineWidth margin : Nat)
    (st : PdfDoc × Nat) (b : Block) : PdfDoc × Nat :=
  let (d, y) := st
  let (d, y) := if y > 270 then (addPage d, margin) else (d, y)
  match b.type with
  | .h2 =>
    let d := setBold (setFontSize d 14) true
    let d := drawText d [b.text] margin y
    (setBold (setFontSize d 11) false, y + 8)
  | .h3 =>
    let d := setBold (setFontSize d 12) true
    let d := drawText d [b.text] margin y
    (setBold (setFontSize d 11) false, y + 7)
  | .p =>
    let lines := split b.text lineWidth
    (drawText d lines margin y, y + lines.length * 5 + 3)

/-- One reference line (app.js lines 459-467): a near-bottom check,
then the wrapped reference drawn and the cursor advanced. -/
def refStep (split : String → Nat → List String) (lineWidth margin : Nat)
    (st : PdfDoc × Nat) (ref : String) : PdfDoc × Nat :=
  let (d, y) := st
  let (d, y) := if y > 270 then (addPage d, margin) else (d, y)
  let lines := split ref lineWidth
  (drawText d lines margin y, y + lines.length * 5 + 4)

/-- Embedding of buildPdf: title, optional table of contents, body
blocks, optional references section, returned as the page list. -/
def buildPdf (split : String → Nat → List String)
    (title : String) (bodyBlocks : List Block) (references : List String) :
    List (List DrawOp) :=
  let margin := 20
  let lineWidth := 210 - 2 * margin
  let d := pdfInit
  let y := margin
  let d := setBold (setFontSize d 18) true
  let titleLines := split title lineWidth
  let d := drawText d titleLines margin y
  let y := y + titleLines.length * 8 + 10
  let tocEntries := bodyBlocks.filter fun b =>
    b.type == BlockType.h2 || b.type == BlockType.h3
  let st :=
    if tocEntries.length != 0 || references.length != 0 then
      let d := setFontSize d 14
      let d := drawText d ["Table of Contents"] margin y
      let y := y + 10
      let d := setBold (setFontSize d 11) false
      let st := tocEntries.foldl (tocStep margin) (d, y)
      let st :=
        if references.length != 0 then (drawText st.1 ["References"] margin st.2, st.2 + 6)
        else st
      (st.1, st.2 + 10)
    else (d, y)
  let d := setBold (setFontSize st.1 11) false
  let st := bodyBlocks.foldl (bodyStep split lineWidth margin) (d, st.2)
  let d :=
    if references.length != 0 then
      let st := if st.2 > 250 then (addPage st.1, margin) else st
      let y := st.2 + 10
      let d := setBold (setFontSize st.1 14) true
      let d := drawText d ["References"] margin y
      let y := y + 8
      let d := setBold (setFontSize d 11) false
      (references.foldl (refStep split lineWidth margin) (d, y)).1
    else st.1
  d.pages ++ [d.current]

/-! ## Auxiliary lemmas -/

/-- Dropping a matched head segment never lengthens a list. -/
lemma length_dropWhile_le (p : Char → Bool) (l : List Char) :
    (l.dropWhile p).length ≤ l.length := by
  induction l with
  | nil => simp
  | cons c rest ih =>
    by_cases h : p c
    · simp only [List.dropWhile_cons, h, if_pos]
      exact Nat.le_succ_of_le ih
    · simp [List.dropWhile_cons, h]

/-- Taking a matched head segment never lengthens a list. -/
lemma length_takeWhile_le (p : Char → Bool) (l : List Char) :
    (l.takeWhile p).length ≤ l.length := by
  induction l with
  | nil => simp
  | cons c rest ih =>
    by_cases h : p c
    · simp only [List.takeWhile_cons, h, if_pos, List.length_cons]
      exact Nat.succ_le_succ ih
    · simp [List.takeWhile_cons, h]

/-- Trimming never lengthens a list. -/
lemma trimChars_length_le (l : List Char) : (trimChars l).length ≤ l.length := by
  unfold trimChars
  calc ((l.dropWhile jsWsChar).reverse.dropWhile jsWsChar).reverse.length
      = ((l.dropWhile jsWsChar).reverse.dropWhile jsWsChar).length := by simp
    _ ≤ (l.dropWhile jsWsChar).reverse.length := length_dropWhile_le _ _
    _ = (l.dropWhile jsWsChar).length := by simp
    _ ≤ l.length := length_dropWhile_le _ _

/-- Dropping one leading greater-than sign never lengthens a list. -/
lemma dropOneGt_length_le (l : List Char) : (dropOneGt l).length ≤ l.length := by
  cases l with
  | nil => simp [dropOneGt]
  | cons c rest =>
    by_cases h : c = '>'
    · simp [dropOneGt, h]
    · simp [dropOneGt, h]

/-- The scan never reaches past the end of the text. -/
lemma scanLen_le (text : List Char) : scanLen text ≤ text.length :=
  length_takeWhile_le _ _

/-- A stripping step at a positive scan strictly shrinks the text. -/
lemma stripStep_length_lt (text : List Char) (h : 0 < scanLen text) :
    (stripStep text (scanLen text)).length < text.length := by
  have h1 : (stripStep text (scanLen text)).length
      ≤ (text.drop (scanLen text)).length := by
    unfold stripStep
    calc (trimChars (dropOneGt (trimChars (text.drop (scanLen text))))).length
        ≤ (dropOneGt (trimChars (text.drop (scanLen text)))).length := trimChars_length_le _
      _ ≤ (trimChars (text.drop (scanLen text))).length := dropOneGt_length_le _
      _ ≤ (text.drop (scanLen text)).length := trimChars_length_le _
  have h2 : (text.drop (scanLen text)).length = text.length - scanLen text := by simp
  have h3 : scanLen text ≤ text.length := scanLen_le text
  omega

/-- After enough fuel the cleaner loop reaches a state where its guard
is false. -/
lemma cleanLoopFuel_fix : ∀ (fuel : Nat) (text : List Char), text.length < fuel →
    loopCond (cleanLoopFuel fuel text) = false := by
  intro fuel
  induction fuel with
  | zero => intro text h; exact absurd h (Nat.not_lt_zero _)
  | succ fuel ih =>
    intro text h
    by_cases hc : loopCond text = true
    · have hpos : 0 < scanLen text := by
        have := hc
        unfold loopCond at this
        simp only [Bool.and_eq_true, decide_eq_true_eq] at this
        exact this.1
      have hlt : (stripStep text (scanLen text)).length < text.length :=
        stripStep_length_lt text hpos
      simp only [cleanLoopFuel, hc, if_pos]
      exact ih _ (by omega)
    · have hc' : loopCond text = false := by
        cases hb : loopCond text
        · rfl
        · exact absurd hb hc
      simp [cleanLoopFuel, hc']

/-- The cleaner output is a fixpoint of the loop guard. -/
lemma loopCond_cleanRefChars (raw : List Char) : loopCond (cleanRefChars raw) = false := by
  unfold cleanRefChars
  exact cleanLoopFuel_fix _ _ (Nat.lt_succ_self _)

/-- A scan over a fully matched segment followed by a non-matching
character takes exactly that segment. -/
lemma takeWhile_run (p : Char → Bool) : ∀ (pre : List Char) (x : Char) (rest : List Char),
    (∀ c ∈ pre, p c = true) → p x = false →
    (pre ++ x :: rest).takeWhile p = pre := by
  intro pre
  induction pre with
  | nil => intro x rest _ hx; simp [List.takeWhile_cons, hx]
  | cons a pre ih =>
    intro x rest hall hx
    have ha : p a = true := hall a (by simp)
    simp only [List.cons_append, List.takeWhile_cons, ha, if_pos]
    rw [ih x rest (fun c hc => hall c (by simp [hc])) hx]

/-- The element just after a segment, by index. -/
lemma getElem?_after_run : ∀ (pre : List Char) (x : Char) (rest : List Char),
    (pre ++ x :: rest)[pre.length]? = some x := by
  intro pre
  induction pre with
  | nil => intro x rest; simp
  | cons a pre ih => intro x rest; simpa using ih x rest

/-- A text beginning with a non-empty lowercase-or-space run followed by
a greater-than sign satisfies the loop guard. -/
lemma loopCond_of_lower_run_gt (t : List Char) (pre rest : List Char)
    (ht : t = pre ++ '>' :: rest) (hne : pre ≠ [])
    (hall : ∀ c ∈ pre, isLowerSpace c = true) : loopCond t = true := by
  have hgt : isLowerSpace '>' = false := by decide
  have hscan : scanLen t = pre.length := by
    unfold scanLen
    rw [ht, takeWhile_run isLowerSpace pre '>' rest hall hgt]
  have hget : t[pre.length]? = some '>' := by
    rw [ht]
    exact getElem?_after_run pre '>' rest
  have hpos : 0 < pre.length := List.length_pos.mpr hne
  unfold loopCond
  simp [hscan, hget, hpos]

/-- A stop heading has non-empty normalized text, since the empty
string is not a stop-section name. -/
lemma stop_text_ne_empty {t : String} (h : isStopHeadingText t = true) : t ≠ "" := by
  intro h0
  rw [h0] at h
  exact absurd h (by decide)

/-- Block collection ignores everything from a stop heading on: the
blocks of any document containing a stop heading are the blocks of the
elements before it. -/
lemma extractBlocks_append_stop (l1 l2 : List Element) (e : Element)
    (htag : e.tag = Tag.h2 ∨ e.tag = Tag.h3)
    (hstop : isStopHeadingText (normalizeWs e.text) = true) :
    extractBlocks (l1 ++ e :: l2) = extractBlocks l1 := by
  induction l1 with
  | nil =>
    have ht : ¬ normalizeWs e.text = "" := stop_text_ne_empty hstop
    rcases htag with h | h <;>
      simp [extractBlocks, h, ht, hstop]
  | cons a l1 ih =>
    simp only [List.cons_append, extractBlocks]
    cases ha : a.tag <;> simp only []
    case h2 =>
      by_cases h1 : normalizeWs a.text = ""
      · simp [h1, ih]
      · by_cases h2 : isStopHeadingText (normalizeWs a.text) = true
        · simp [h1, h2]
        · simp [h1, h2, ih]
    case h3 =>
      by_cases h1 : normalizeWs a.text = ""
      · simp [h1, ih]
      · by_cases h2 : isStopHeadingText (normalizeWs a.text) = true
        · simp [h1, h2]
        · simp [h1, h2, ih]
    case p =>
      by_cases h1 : normalizeWs a.text = ""
      · simp [h1, ih]
      · simp [h1, ih]
    case liCite => exact ih
    case other => exact ih

/-- Reference collection never looks at an element that is not a
citation list item. -/
lemma extractRefsAux_append_skip (e : Element) (he : ¬ e.tag = Tag.liCite) :
    ∀ (l1 l2 : List Element) (acc : List String),
      extractRefsAux (l1 ++ e :: l2) acc = extractRefsAux (l1 ++ l2) acc := by
  intro l1
  induction l1 with
  | nil =>
    intro l2 acc
    simp [extractRefsAux, he]
  | cons a l1 ih =>
    intro l2 acc
    by_cases ha : a.tag = Tag.liCite
    · by_cases hc : cleanReferenceText (normalizeWs a.text) = ""
      · simp [extractRefsAux, ha, hc, ih]
      · simp [extractRefsAux, ha, hc, ih]
    · simp [extractRefsAux, ha, ih]

/-- The reference accumulator invariant: running the reference loop
appends the cleaned non-empty citation texts numbered from the current
length on. -/
lemma extractRefsAux_eq (l : List Element) : ∀ acc : List String,
    extractRefsAux l acc = acc ++ numberRefs acc.length (cleanedRefTexts l) := by
  induction l with
  | nil => intro acc; simp [extractRefsAux, cleanedRefTexts, numberRefs]
  | cons e rest ih =>
    intro acc
    by_cases he : e.tag = Tag.liCite
    · by_cases hc : cleanReferenceText (normalizeWs e.text) = ""
      · simp [extractRefsAux, cleanedRefTexts, he, hc, ih]
      · have step : extractRefsAux (e :: rest) acc
            = extractRefsAux rest
                (acc ++ [refString acc.length (cleanReferenceText (normalizeWs e.text))]) := by
          simp [extractRefsAux, he, hc]
        rw [step, ih]
        simp [cleanedRefTexts, numberRefs, he, hc, List.append_assoc]
    · simp [extractRefsAux, cleanedRefTexts, he, ih]

/-- A run of successful pages with continuation tokens followed by a
final page accumulates every qualifying link in order. -/
lemma fetchLinksGo_accumulate (pages : List (List WikiLink)) :
    ∀ (acc : List String) (lastLinks : List WikiLink) (rest : List ListingResponse),
      fetchLinksGo (pages.map (fun ls => ListingResponse.ok ls true)
          ++ ListingResponse.ok lastLinks false :: rest) acc
        = acc ++ (pages.map qualifyLinks).flatten ++ qualifyLinks lastLinks := by
  induction pages with
  | nil => intro acc lastLinks rest; simp [fetchLinksGo]
  | cons ls pages ih =>
    intro acc lastLinks rest
    simp [fetchLinksGo, ih, List.append_assoc]

/-- A failure response anywhere in the consumed run makes the whole
listing empty. -/
lemma fetchLinksGo_failure (pages : List (List WikiLink)) :
    ∀ (acc : List String) (r : ListingResponse) (rest : List ListingResponse),
      isFailureResponse r = true →
      fetchLinksGo (pages.map (fun ls => ListingResponse.ok ls true) ++ r :: rest) acc = [] := by
  induction pages with
  | nil =>
    intro acc r rest hr
    cases r with
    | ok links hasContinue => simp [isFailureResponse] at hr
    | transportError => simp [fetchLinksGo]
    | httpError => simp [fetchLinksGo]
    | apiError => simp [fetchLinksGo]
    | missingPage => simp [fetchLinksGo]
  | cons ls pages ih =>
    intro acc r rest hr
    simp [fetchLinksGo, ih _ r rest hr]

/-- Characterization of a missing url in the read log. -/
lemma findIndexUrl_none_iff (url : String) : ∀ log : List LogEntry,
    findIndexUrl url log = none ↔ ∀ e ∈ log, ¬ e.url = url := by
  intro log
  induction log with
  | nil => simp [findIndexUrl]
  | cons e rest ih =>
    by_cases h : e.url = url
    · simp [findIndexUrl, h]
    · simp [findIndexUrl, h, Option.map_eq_none', ih]

/-- A found index is in range and points at an entry with the url. -/
lemma findIndexUrl_some (url : String) : ∀ (log : List LogEntry) (i : Nat),
    findIndexUrl url log = some i →
    ∃ h : i < log.length, (log.get ⟨i, h⟩).url = url := by
  intro log
  induction log with
  | nil => intro i h; simp [findIndexUrl] at h
  | cons e rest ih =>
    intro i h
    by_cases he : e.url = url
    · rw [findIndexUrl, if_pos he] at h
      injection h with h0
      subst h0
      exact ⟨by simp, he⟩
    · rw [findIndexUrl, if_neg he, Option.map_eq_some'] at h
      obtain ⟨j, hj, hi⟩ := h
      subst hi
      obtain ⟨hlt, hurl⟩ := ih j hj
      exact ⟨Nat.succ_lt_succ hlt, hurl⟩

/-- With distinct urls, the index of the entry holding the url is the
one findIndex returns. -/
lemma findIndexUrl_of_get (url : String) : ∀ (log : List LogEntry) (i : Nat)
    (h : i < log.length), (log.map LogEntry.url).Nodup →
    (log.get ⟨i, h⟩).url = url → findIndexUrl url log = some i := by
  intro log
  induction log with
  | nil => intro i h; exact absurd h (by simp)
  | cons e rest ih =>
    intro i h hnd hget
    have hnd2 : e.url ∉ rest.map LogEntry.url ∧ (rest.map LogEntry.url).Nodup := by
      simpa [List.nodup_cons] using hnd
    cases i with
    | zero =>
      have : e.url = url := hget
      simp [findIndexUrl, this]
    | succ j =>
      have hj : j < rest.length := Nat.lt_of_succ_lt_succ h
      have hget2 : (rest.get ⟨j, hj⟩).url = url := hget
      have hne : ¬ e.url = url := by
        intro habs
        apply hnd2.1
        rw [habs, ← hget2]
        exact List.mem_map_of_mem LogEntry.url (List.get_mem rest j hj)
      rw [findIndexUrl, if_neg hne, ih j hj hnd2.2 hget2]
      rfl

/-- Setting a position to the value it already holds leaves the list
unchanged. -/
lemma set_get_self {α : Type} : ∀ (l : List α) (i : Nat) (h : i < l.length) (a : α),
    l.get ⟨i, h⟩ = a → l.set i a = l := by
  intro l
  induction l with
  | nil => intro i h; exact absurd h (by simp)
  | cons x rest ih =>
    intro i h a hget
    cases i with
    | zero => simp [List.set, ← hget]
    | succ j =>
      have hj : j < rest.length := Nat.lt_of_succ_lt_succ h
      simp [List.set, ih j hj a hget]

/-! ## Claim theorems -/

/-- C1, counterexample: the claim asserts that nothing after a stop
heading appears in the result, including references; but the reference
loop runs over the whole document separately from the block loop, so a
citation list item after the stop heading still yields a reference. -/
theorem C1_counterexample :
    isStopHeadingText (normalizeWs "References") = true ∧
    extractBlocks [⟨Tag.h2, "References"⟩, ⟨Tag.liCite, "^ foo."⟩] = [] ∧
    extractRefs [⟨Tag.h2, "References"⟩, ⟨Tag.liCite, "^ foo."⟩] = ["[1] foo."] := by
  decide

/-- C1, amended: once the extractor visits a level-2 or level-3 heading
whose lowercased normalized text is a stop-section name, no further
content blocks are collected (block collection stops entirely);
references are collected by a separate pass over citation list items
and are unaffected by the heading. -/
theorem C1_stop_heading_extraction (l1 l2 : List Element) (e : Element)
    (htag : e.tag = Tag.h2 ∨ e.tag = Tag.h3)
    (hstop : isStopHeadingText (normalizeWs e.text) = true) :
    extractBlocks (l1 ++ e :: l2) = extractBlocks l1 ∧
    extractRefs (l1 ++ e :: l2) = extractRefs (l1 ++ l2) := by
  refine ⟨extractBlocks_append_stop l1 l2 e htag hstop, ?_⟩
  have he : ¬ e.tag = Tag.liCite := by
    rcases htag with h | h <;> rw [h] <;> intro hc <;> exact absurd hc (by decide)
  exact extractRefsAux_append_skip e he l1 l2 []

/-- C1, witness: a concrete document with a paragraph, a stop heading
and a citation list item after it. -/
theorem C1_witness :
    ((⟨Tag.h2, "See also"⟩ : Element).tag = Tag.h2 ∨ (⟨Tag.h2, "See also"⟩ : Element).tag = Tag.h3) ∧
    isStopHeadingText (normalizeWs "See also") = true ∧
    (extractBlocks ([⟨Tag.p, "Intro"⟩] ++ ⟨Tag.h2, "See also"⟩ :: [⟨Tag.liCite, "^ note one."⟩])
        = extractBlocks [⟨Tag.p, "Intro"⟩] ∧
     extractRefs ([⟨Tag.p, "Intro"⟩] ++ ⟨Tag.h2, "See also"⟩ :: [⟨Tag.liCite, "^ note one."⟩])
        = extractRefs ([⟨Tag.p, "Intro"⟩] ++ [⟨Tag.liCite, "^ note one."⟩])) :=
  ⟨Or.inl rfl, by decide,
    C1_stop_heading_extraction [⟨Tag.p, "Intro"⟩] [⟨Tag.liCite, "^ note one."⟩]
      ⟨Tag.h2, "See also"⟩ (Or.inl rfl) (by decide)⟩

/-- C2, counterexample: the claim asserts that logging an article whose
url already has an entry moves it to position 0; on a log where the
matching entry sits at position 1, the entry at position 0 after
logging is still the unrelated first entry. -/
theorem C2_counterexample :
    (findIndexUrl "u2" [⟨"A", "u1", "History", "d1"⟩, ⟨"B", "u2", "History", "d2"⟩]).isSome = true ∧
    (logArticle "u2" "B2" "history" "d3"
        [⟨"A", "u1", "History", "d1"⟩, ⟨"B", "u2", "History", "d2"⟩]).head?
      = some ⟨"A", "u1", "History", "d1"⟩ := by
  decide

/-- C2, amended: on a log with pairwise distinct urls, logging an
article whose url has no entry prepends the new entry; logging an
article whose url has an entry overwrites that entry at its existing
position, without moving it to the front. -/
theorem C2_log_replace_in_place (log : List LogEntry) (url title category date : String)
    (hnd : (log.map LogEntry.url).Nodup) :
    ((∀ e ∈ log, ¬ e.url = url) →
      logArticle url title category date log
        = ⟨title, url, categoryLabel category, date⟩ :: log) ∧
    (∀ (i : Nat) (hi : i < log.length), (log.get ⟨i, hi⟩).url = url →
      logArticle url title category date log
        = log.set i ⟨title, url, categoryLabel category, date⟩) := by
  constructor
  · intro hall
    unfold logArticle
    rw [(findIndexUrl_none_iff url log).mpr hall]
  · intro i hi hget
    unfold logArticle
    rw [findIndexUrl_of_get url log i hi hnd hget]

/-- C2, witness: the concrete two-entry log of the counterexample. -/
theorem C2_witness :
    (([⟨"A", "u1", "History", "d1"⟩, ⟨"B", "u2", "History", "d2"⟩] : List LogEntry).map
        LogEntry.url).Nodup ∧
    logArticle "u2" "B2" "history" "d3"
        [⟨"A", "u1", "History", "d1"⟩, ⟨"B", "u2", "History", "d2"⟩]
      = ([⟨"A", "u1", "History", "d1"⟩, ⟨"B", "u2", "History", "d2"⟩] : List LogEntry).set 1
          ⟨"B2", "u2", categoryLabel "history", "d3"⟩ :=
  ⟨by decide,
    (C2_log_replace_in_place
        [⟨"A", "u1", "History", "d1"⟩, ⟨"B", "u2", "History", "d2"⟩]
        "u2" "B2" "history" "d3" (by decide)).2 1 (by decide) (by decide)⟩

/-- C3, counterexample: on the given input the cleaner does not return
the claimed string, because the label "Jump up" starts with an
uppercase letter and the stripping scan only consumes lowercase letters
and spaces. -/
theorem C3_counterexample :
    ¬ cleanReferenceText "^ Jump up > Smith, J. (2001). Title."
        = "Smith, J. (2001). Title." := by
  decide

/-- C3, amended: the cleaner applied to the input strips only the
leading caret, returning the text with the capitalized label intact. -/
theorem C3_clean_example_output :
    cleanReferenceText "^ Jump up > Smith, J. (2001). Title."
      = "Jump up > Smith, J. (2001). Title." := by
  decide

/-- C4, counterexample: the claim asserts the output never begins with
a caret for any input beginning with one, but only one leading caret is
stripped: on input of two carets the output still begins with a caret. -/
theorem C4_counterexample :
    "^^".toList.head? = some '^' ∧ (cleanReferenceText "^^").toList.head? = some '^' := by
  decide

/-- C4, amended: for every raw citation string beginning with a caret,
the cleaner output never begins with a non-empty run of lowercase
letters and spaces followed by a greater-than sign; the output can,
however, still begin with a caret when the input has more than one. -/
theorem C4_clean_no_lower_run_gt (raw : String) (h : raw.toList.head? = some '^') :
    ¬ ∃ pre rest, (cleanReferenceText raw).toList = pre ++ '>' :: rest ∧
      pre ≠ [] ∧ ∀ c ∈ pre, isLowerSpace c = true := by
  rintro ⟨pre, rest, ht, hne, hall⟩
  have hfix : loopCond (cleanRefChars raw.toList) = false := loopCond_cleanRefChars raw.toList
  have hout : (cleanReferenceText raw).toList = cleanRefChars raw.toList := rfl
  rw [hout] at ht
  rw [loopCond_of_lower_run_gt (cleanRefChars raw.toList) pre rest ht hne hall] at hfix
  exact absurd hfix (by decide)

/-- C4, witness: a concrete caret-headed input. -/
theorem C4_witness :
    "^ jump up > Smith.".toList.head? = some '^' ∧
    ¬ ∃ pre rest, (cleanReferenceText "^ jump up > Smith.").toList = pre ++ '>' :: rest ∧
      pre ≠ [] ∧ ∀ c ∈ pre, isLowerSpace c = true :=
  ⟨by decide, C4_clean_no_lower_run_gt "^ jump up > Smith." (by decide)⟩

/-- C5: the plain-text formatter on the given document produces exactly
the claimed string: title line, equals-sign underline of the title
length, blank line, then the body with a blank line before the heading
and the paragraphs on adjacent lines. -/
theorem C5_format_plain_text_example :
    formatPlainText "Cat"
        [⟨BlockType.h2, "History"⟩, ⟨BlockType.p, "Para one."⟩, ⟨BlockType.p, "Para two."⟩] []
      = "Cat\n===\n\nHistory\n\nPara one.\nPara two." := by
  decide

/-- C6: the extracted references are exactly the cleaned non-empty
citation texts in document order, numbered sequentially from 1; a
citation whose cleaned text is empty is omitted and consumes no index. -/
theorem C6_reference_numbering (l : List Element) :
    extractRefs l = numberRefs 0 (cleanedRefTexts l) := by
  have h := extractRefsAux_eq l []
  simpa [extractRefs] using h

/-- C7: for a category with a backing page, a run of successful pages
with continuation tokens followed by a final page accumulates every
qualifying link of every page in order into one list; and if any page
request fails (transport error, non-success status, upstream error, or
missing listing page), the whole listing is the empty list rather than
the links accumulated so far. -/
theorem C7_listing_accumulate_or_abort (category : String)
    (hcat : (getPageTitleForCategory category).isSome = true)
    (pages : List (List WikiLink)) (lastLinks : List WikiLink)
    (rest1 rest2 : List ListingResponse) (r : ListingResponse)
    (hr : isFailureResponse r = true) :
    fetchArticleLinks category
        (pages.map (fun ls => ListingResponse.ok ls true)
          ++ ListingResponse.ok lastLinks false :: rest1)
      = (pages.map qualifyLinks).flatten ++ qualifyLinks lastLinks ∧
    fetchArticleLinks category
        (pages.map (fun ls => ListingResponse.ok ls true) ++ r :: rest2)
      = [] := by
  obtain ⟨t, ht⟩ := Option.isSome_iff_exists.mp hcat
  constructor
  · unfold fetchArticleLinks
    rw [ht]
    simpa using fetchLinksGo_accumulate pages [] lastLinks rest1
  · unfold fetchArticleLinks
    rw [ht]
    exact fetchLinksGo_failure pages [] r rest2 hr

/-- C7, witness: the history category with one continued page, a final
page, and separately an aborting transport error. -/
theorem C7_witness :
    (getPageTitleForCategory "history").isSome = true ∧
    isFailureResponse ListingResponse.transportError = true ∧
    (fetchArticleLinks "history"
        ([[⟨0, "Alpha Beta"⟩, ⟨1, "File:X"⟩]].map (fun ls => ListingResponse.ok ls true)
          ++ ListingResponse.ok [⟨0, "Gamma"⟩] false :: [])
      = ([[⟨0, "Alpha Beta"⟩, ⟨1, "File:X"⟩]].map qualifyLinks).flatten
          ++ qualifyLinks [⟨0, "Gamma"⟩] ∧
    fetchArticleLinks "history"
        ([[⟨0, "Alpha Beta"⟩, ⟨1, "File:X"⟩]].map (fun ls => ListingResponse.ok ls true)
          ++ ListingResponse.transportError :: [])
      = []) :=
  ⟨by decide, by decide,
    C7_listing_accumulate_or_abort "history" (by decide)
      [[⟨0, "Alpha Beta"⟩, ⟨1, "File:X"⟩]] [⟨0, "Gamma"⟩] [] []
      ListingResponse.transportError (by decide)⟩

/-- C8: for every title and every wrapping function, the PDF layout of
an empty document is exactly one page whose only draw operation is the
wrapped title, at the top margin in large bold font; no table of
contents, body text or references heading is drawn. -/
theorem C8_empty_doc_single_page (split : String → Nat → List String) (title : String) :
    buildPdf split title [] [] = [[⟨split title (210 - 2 * 20), 20, 20, 18, true⟩]] :=
  rfl

/-- C9: for every URL that does not begin with the wiki article base
and every would-be upstream outcome, the content fetch returns null
having issued no request. -/
theorem C9_invalid_url_no_request (url : String) (resp : ContentResponse)
    (h : startsWithChars wikiUrlBase.toList url.toList = false) :
    fetchArticleContent url resp = (none, 0) := by
  unfold fetchArticleContent
  rw [h]
  simp

/-- C9, witness: a URL outside the wiki article base. -/
theorem C9_witness :
    startsWithChars wikiUrlBase.toList "http://example.com/wiki/X".toList = false ∧
    fetchArticleContent "http://example.com/wiki/X" ContentResponse.failure = (none, 0) :=
  ⟨by decide, C9_invalid_url_no_request "http://example.com/wiki/X" ContentResponse.failure (by decide)⟩

/-- C10: on a log with pairwise distinct urls, logging an article keeps
the urls pairwise distinct; the length is unchanged when an entry with
the url was present, and grows by exactly one when none was. -/
theorem C10_log_nodup_invariant (log : List LogEntry) (url title category date : String)
    (hnd : (log.map LogEntry.url).Nodup) :
    ((logArticle url title category date log).map LogEntry.url).Nodup ∧
    ((∃ e ∈ log, e.url = url) →
      (logArticle url title category date log).length = log.length) ∧
    ((∀ e ∈ log, ¬ e.url = url) →
      (logArticle url title category date log).length = log.length + 1) := by
  cases hfind : findIndexUrl url log with
  | none =>
    have hall := (findIndexUrl_none_iff url log).mp hfind
    have hres : logArticle url title category date log
        = ⟨title, url, categoryLabel category, date⟩ :: log := by
      unfold logArticle
      rw [hfind]
    refine ⟨?_, ?_, ?_⟩
    · rw [hres]
      simp only [List.map_cons, List.nodup_cons]
      refine ⟨?_, hnd⟩
      intro hmem
      obtain ⟨e, he, heq⟩ := List.mem_map.mp hmem
      exact hall e he heq
    · rintro ⟨e, he, heq⟩
      exact absurd heq (hall e he)
    · intro _
      rw [hres]
      simp
  | some i =>
    obtain ⟨hi, hget⟩ := findIndexUrl_some url log i hfind
    have hres : logArticle url title category date log
        = log.set i ⟨title, url, categoryLabel category, date⟩ := by
      unfold logArticle
      rw [hfind]
    refine ⟨?_, ?_, ?_⟩
    · rw [hres, List.map_set]
      have hmapget : (log.map LogEntry.url).get ⟨i, by simpa using hi⟩ = url := by
        rw [List.get_map]
        exact hget
      rw [set_get_self (log.map LogEntry.url) i (by simpa using hi) url hmapget]
      exact hnd
    · intro _
      rw [hres]
      simp
    · intro hall
      exact absurd hget (hall _ (List.get_mem log i hi))

/-- C10, witness: a one-entry log re-logging the same url. -/
theorem C10_witness :
    (([⟨"A", "u1", "History", "d1"⟩] : List LogEntry).map LogEntry.url).Nodup ∧
    (∃ e ∈ ([⟨"A", "u1", "History", "d1"⟩] : List LogEntry), e.url = "u1") ∧
    (logArticle "u1" "A2" "history" "d2" [⟨"A", "u1", "History", "d1"⟩]).length
      = ([⟨"A", "u1", "History", "d1"⟩] : List LogEntry).length :=
  ⟨by decide, by decide,
    (C10_log_nodup_invariant [⟨"A", "u1", "History", "d1"⟩] "u1" "A2" "history" "d2"
        (by decide)).2.1 (by decide)⟩

end WikiRandom

